import Mathlib

/-!
Verification of the slot-reservation and appointment-lifecycle engine of the
Ilpoton_bot repository, as a shallow embedding.

Data model: `src/database/models/models.py` (`TimeSlot`, `Appointment`, `Service`).
Operations:
* `create_appointment` — `src/handlers/client/appointments.py`, `create_appointment`
  (slot availability check at lines 852-861, write section at lines 904-955);
* `confirm_appointment` — the admin confirmation flow: the guard checks of
  `confirm_appointment` (`src/handlers/admin/appointments.py` lines 598-629)
  followed by the mutation of `process_appointment_price` (lines 275-316);
* `cancel_appointment` — `src/core/utils/time_slots.py` lines 174-205 (the
  client-side handler `handle_cancel_reason_selection` performs the same mutation);
* `update_completed_appointments` — `src/core/utils/time_slots.py` lines 272-326;
* `notify_admin_about_appointment` — `src/core/scheduler/appointment_notifications.py`.

Times are modelled as minutes (`Int`); one clock hour is 60.
-/

namespace IlpotonBot

/-- Appointment status values, `Appointment.status` in `models.py` (a string
column with values "PENDING", "CONFIRMED", "CANCELLED", "COMPLETED"). -/
inductive Status where
  | pending
  | confirmed
  | cancelled
  | completed
deriving DecidableEq

/-- `Service` model: `price` and `duration` (minutes) are the fields the engine reads. -/
structure Service where
  id : Nat
  price : Int
  duration : Nat
deriving DecidableEq

/-- `TimeSlot` model: `date` is the slot's start time in minutes, `is_available`
the availability flag. -/
structure TimeSlot where
  id : Nat
  date : Int
  is_available : Bool
deriving DecidableEq

/-- `Appointment` model, restricted to the fields the engine reads or writes. -/
structure Appointment where
  id : Nat
  time_slot_id : Nat
  service_id : Nat
  status : Status
  final_price : Option Int
  confirmed_at : Option Int
  cancellation_reason : Option String
  notified : Bool
deriving DecidableEq

/-- The relational store: the `time_slots` and `appointments` tables plus the
read-only `services` table, with the id sequences for row creation. -/
structure DB where
  slots : List TimeSlot
  appointments : List Appointment
  services : List Service
  nextSlotId : Nat
  nextAppId : Nat
deriving DecidableEq

/-- `session.get(TimeSlot, sid)`: primary-key lookup. -/
def getSlot (db : DB) (sid : Nat) : Option TimeSlot :=
  db.slots.find? (fun s => s.id == sid)

/-- `select(TimeSlot).where(TimeSlot.date == d)` with `scalar_one_or_none()`. -/
def getSlotByDate (db : DB) (d : Int) : Option TimeSlot :=
  db.slots.find? (fun s => s.date == d)

/-- `session.get(Service, sid)`. -/
def getService (db : DB) (sid : Nat) : Option Service :=
  db.services.find? (fun s => s.id == sid)

/-- `select(Appointment).where(Appointment.id == aid)` with `scalar_one_or_none()`. -/
def getAppointment (db : DB) (aid : Nat) : Option Appointment :=
  db.appointments.find? (fun a => a.id == aid)

/-- Set the availability flag of the slot row with the given id
(`time_slot.is_available = v` on a row fetched by primary key). -/
def setSlotAvailById (db : DB) (sid : Nat) (v : Bool) : DB :=
  { db with slots := db.slots.map (fun s =>
      if s.id = sid then { s with is_available := v } else s) }

/-- The buffer-blocking step used by `create_appointment` (lines 920-952) and
`process_appointment_price` (lines 281-314): fetch the slot at date `d`; if it
exists mark it unavailable, otherwise insert a new unavailable slot at `d`. -/
def blockDate (db : DB) (d : Int) : DB :=
  match getSlotByDate db d with
  | some _ =>
      { db with slots := db.slots.map (fun s =>
          if s.date = d then { s with is_available := false } else s) }
  | none =>
      { db with slots := db.slots ++ [⟨db.nextSlotId, d, false⟩],
                nextSlotId := db.nextSlotId + 1 }

/-- The buffer-release step of `cancel_appointment` (lines 196-203): fetch the
slot at date `d`; if it exists mark it available, otherwise do nothing. -/
def releaseDate (db : DB) (d : Int) : DB :=
  match getSlotByDate db d with
  | some _ =>
      { db with slots := db.slots.map (fun s =>
          if s.date = d then { s with is_available := true } else s) }
  | none => db

inductive CreateErr where
  | slotUnavailable
  | serviceMissing
deriving DecidableEq

inductive ConfirmErr where
  | notFound
  | pastSlot
  | alreadyConfirmed
  | alreadyCancelled
  | overlap
deriving DecidableEq

inductive CancelErr where
  | notFound
deriving DecidableEq

/-- The write section of `create_appointment`
(`src/handlers/client/appointments.py` lines 904-955), executed after the
availability check passed: build the PENDING appointment with `final_price`
already set (the price extracted from a price request, else `service.price`),
mark the target slot unavailable, mark the next-hour and previous-hour slots
unavailable (creating them if absent), and insert the appointment. -/
def createWriteSection (db : DB) (slot : TimeSlot) (svc : Service)
    (reqPrice : Option Int) : DB :=
  let finalPrice : Int := match reqPrice with
    | some p => p
    | none => svc.price
  let app : Appointment :=
    { id := db.nextAppId, time_slot_id := slot.id, service_id := svc.id,
      status := .pending, final_price := some finalPrice, confirmed_at := none,
      cancellation_reason := none, notified := false }
  let db1 := setSlotAvailById db slot.id false
  let db2 := blockDate db1 (slot.date + 60)
  let db3 := blockDate db2 (slot.date - 60)
  { db3 with appointments := db3.appointments ++ [app],
             nextAppId := db3.nextAppId + 1 }

/-- `create_appointment` (`src/handlers/client/appointments.py` lines 816-955):
fetch the target slot; if it is missing or not available, report the slot as
taken; otherwise fetch the service and run the write section. Returns the new
appointment id alongside the updated store. -/
def create_appointment (db : DB) (slotId serviceId : Nat)
    (reqPrice : Option Int) : Except CreateErr (DB × Nat) :=
  match getSlot db slotId with
  | none => .error .slotUnavailable
  | some slot =>
    if slot.is_available then
      match getService db serviceId with
      | none => .error .serviceMissing
      | some svc => .ok (createWriteSection db slot svc reqPrice, db.nextAppId)
    else .error .slotUnavailable

/-- The admin confirmation flow: the guards of `confirm_appointment`
(`src/handlers/admin/appointments.py` lines 598-629) — not found, slot time in
the past, already confirmed, already cancelled, another CONFIRMED appointment
at the same slot date-time — followed by the mutation of
`process_appointment_price` (lines 275-316): status CONFIRMED, `confirmed_at`
now, `final_price` the entered price, then block the next-hour and
previous-hour slots. -/
def confirm_appointment (db : DB) (appId : Nat) (price : Int) (now : Int) :
    Except ConfirmErr DB :=
  match getAppointment db appId with
  | none => .error .notFound
  | some app =>
    match getSlot db app.time_slot_id with
    | none => .error .notFound
    | some slot =>
      if slot.date < now then .error .pastSlot
      else if app.status = .confirmed then .error .alreadyConfirmed
      else if app.status = .cancelled then .error .alreadyCancelled
      else if db.appointments.any (fun b =>
          b.id != appId && b.status == Status.confirmed &&
          (match getSlot db b.time_slot_id with
           | some s => s.date == slot.date
           | none => false)) then .error .overlap
      else
        let db1 := { db with appointments := db.appointments.map (fun b =>
          if b.id = appId then
            { b with status := .confirmed, confirmed_at := some now,
                     final_price := some price }
          else b) }
        let db2 := blockDate db1 (slot.date + 60)
        let db3 := blockDate db2 (slot.date - 60)
        .ok db3

/-- `cancel_appointment` (`src/core/utils/time_slots.py` lines 174-205): set
status CANCELLED and the cancellation reason, release the appointment's own
slot, and — only when `confirmed_at` is set — release the slot one hour after
it. The hour-before slot is not touched. -/
def cancel_appointment (db : DB) (appId : Nat) (reason : String) :
    Except CancelErr DB :=
  match getAppointment db appId with
  | none => .error .notFound
  | some app =>
    let db1 := { db with appointments := db.appointments.map (fun b =>
      if b.id = appId then
        { b with status := .cancelled, cancellation_reason := some reason }
      else b) }
    match getSlot db app.time_slot_id with
    | none => .ok db1
    | some slot =>
      let db2 := setSlotAvailById db1 slot.id true
      let db3 := if app.confirmed_at.isSome
        then releaseDate db2 (slot.date + 60)
        else db2
      .ok db3

/-- `update_completed_appointments` (`src/core/utils/time_slots.py` lines
272-326): the query selects CONFIRMED appointments whose slot date is before
`now`; each is promoted to COMPLETED when `now` is strictly after the slot date
plus the service duration. Rows whose slot or service is missing are skipped. -/
def update_completed_appointments (db : DB) (now : Int) : DB :=
  { db with appointments := db.appointments.map (fun a =>
      match getSlot db a.time_slot_id, getService db a.service_id with
      | some slot, some svc =>
          if a.status = .confirmed ∧ slot.date < now ∧
              now > slot.date + (svc.duration : Int)
          then { a with status := .completed }
          else a
      | _, _ => a) }

/-- The due-appointment query of the reminder sweep
(`src/core/scheduler/appointment_notifications.py` lines 26-45): CONFIRMED,
not yet notified, slot date strictly after `now` and at most one hour ahead. -/
def dueAppointments (db : DB) (now : Int) : List Appointment :=
  db.appointments.filter (fun a =>
    a.status == Status.confirmed && !a.notified &&
    (match getSlot db a.time_slot_id with
     | some slot => decide (now < slot.date) && decide (slot.date ≤ now + 60)
     | none => false))

/-- `notify_admin_about_appointment` (`appointment_notifications.py` lines
12-145): for every due appointment, attempt the customer send and one send per
admin; set `notified` only when the customer send and all admin sends
succeeded. `clientOk a` / `adminOk ad a` report whether the send of the
reminder for appointment `a` to the customer / to admin `ad` succeeds. -/
def notify_admin_about_appointment (db : DB) (now : Int)
    (clientOk : Nat → Bool) (admins : List Nat) (adminOk : Nat → Nat → Bool) :
    DB :=
  let due := dueAppointments db now
  { db with appointments := db.appointments.map (fun a =>
      if due.any (fun d => d.id == a.id) && clientOk a.id &&
          admins.all (fun ad => adminOk ad a.id)
      then { a with notified := true }
      else a) }

/-- The request operations of the engine (create, confirm, cancel). -/
inductive Op where
  | create (slotId serviceId : Nat) (reqPrice : Option Int)
  | confirm (appId : Nat) (price : Int) (now : Int)
  | cancel (appId : Nat) (reason : String)

/-- Run one operation; a failed operation leaves the store unchanged
(the handlers return to the caller without mutating on their error paths). -/
def applyOp (db : DB) : Op → DB
  | .create slotId serviceId reqPrice =>
      match create_appointment db slotId serviceId reqPrice with
      | .ok (db', _) => db'
      | .error _ => db
  | .confirm appId price now =>
      match confirm_appointment db appId price now with
      | .ok db' => db'
      | .error _ => db
  | .cancel appId reason =>
      match cancel_appointment db appId reason with
      | .ok db' => db'
      | .error _ => db

/-- Run a sequence of operations. -/
def applyOps (db : DB) (ops : List Op) : DB :=
  ops.foldl applyOp db

/-- An appointment is active when its status is PENDING or CONFIRMED. -/
def Active (a : Appointment) : Prop :=
  a.status = .pending ∨ a.status = .confirmed

instance (a : Appointment) : Decidable (Active a) := by
  unfold Active; infer_instance

/-- Number of active appointments referencing the slot row with id `sid`. -/
def activeCount (db : DB) (sid : Nat) : Nat :=
  (db.appointments.filter (fun a =>
    decide (Active a) && a.time_slot_id == sid)).length

/-!
Interleaving model of the reservation's check-then-write. The body of
`create_appointment` suspends at every awaited query between the availability
check (`appointments.py` line 854) and the write section (lines 904-955): the
service fetch and the price-request fetch are both awaited in between. A
reservation request is therefore modelled as two atomic phases — the check and
the write — between which another request may run.
-/

/-- Progress of one in-flight reservation request: before the availability
check, past the check and about to write, or finished with an outcome
(`true` = appointment created, `false` = rejected as unavailable). -/
inductive Phase where
  | atCheck
  | atWrite
  | finished (ok : Bool)
deriving DecidableEq

/-- One in-flight `create_appointment` request. -/
structure ReserveTask where
  slotId : Nat
  serviceId : Nat
  reqPrice : Option Int
  phase : Phase
deriving DecidableEq

/-- Run one atomic phase of a reservation request against the shared store. -/
def stepTask (db : DB) (t : ReserveTask) : DB × ReserveTask :=
  match t.phase with
  | .atCheck =>
    match getSlot db t.slotId with
    | none => (db, { t with phase := .finished false })
    | some slot =>
      if slot.is_available then
        match getService db t.serviceId with
        | none => (db, { t with phase := .finished false })
        | some _ => (db, { t with phase := .atWrite })
      else (db, { t with phase := .finished false })
  | .atWrite =>
    match getSlot db t.slotId, getService db t.serviceId with
    | some slot, some svc =>
        (createWriteSection db slot svc t.reqPrice, { t with phase := .finished true })
    | _, _ => (db, { t with phase := .finished false })
  | .finished _ => (db, t)

/-- Run the phase of the task selected by the scheduler. -/
def schedStep (st : DB × List ReserveTask) (i : Nat) : DB × List ReserveTask :=
  match st.2[i]? with
  | none => st
  | some t =>
      let r := stepTask st.1 t
      (r.1, st.2.set i r.2)

/-- Run a cooperative schedule: at each tick the named task runs its next
atomic phase. -/
def runSched (db : DB) (ts : List ReserveTask) (sched : List Nat) :
    DB × List ReserveTask :=
  sched.foldl schedStep (db, ts)

/-! Concrete stores and runs used by the counterexamples and witnesses. -/

/-- Slots at 12:00, 13:00 and 14:00 (minutes 720, 780, 840), all available,
one 60-minute service, no appointments. -/
def dbC1 : DB :=
  ⟨[⟨0, 720, true⟩, ⟨1, 780, true⟩, ⟨2, 840, true⟩], [], [⟨0, 100, 60⟩], 3, 0⟩

/-- Book 12:00, confirm it, book 14:00, cancel the confirmed 12:00 booking
(which frees 13:00), book 13:00, confirm it, cancel it (which frees 14:00
while the 14:00 booking is still pending), and book 14:00 again. -/
def opsC1 : List Op :=
  [ .create 0 0 none,
    .confirm 0 500 0,
    .create 2 0 none,
    .cancel 0 "r",
    .create 1 0 none,
    .confirm 2 600 0,
    .cancel 2 "r",
    .create 2 0 none ]

/-- One available slot at 14:00 and one service; the shared store of the
concurrent-reservation scenario. -/
def dbC2 : DB := ⟨[⟨0, 840, true⟩], [], [⟨0, 100, 60⟩], 1, 0⟩

/-- Two reservation requests for the same slot. -/
def tasksC2 : List ReserveTask :=
  [⟨0, 0, none, .atCheck⟩, ⟨0, 0, none, .atCheck⟩]

/-- Slots at 13:00, 14:00, 15:00, all available, with one service. -/
def dbC4start : DB :=
  ⟨[⟨0, 780, true⟩, ⟨1, 840, true⟩, ⟨2, 900, true⟩], [], [⟨0, 100, 60⟩], 3, 0⟩

/-- Book 14:00, confirm the booking, then cancel it. -/
def dbC4run : DB :=
  applyOps dbC4start [.create 1 0 none, .confirm 0 500 0, .cancel 0 "x"]

/-- A store holding a COMPLETED appointment on the 14:00 slot. -/
def dbC5 : DB :=
  ⟨[⟨0, 840, false⟩], [⟨0, 0, 0, .completed, some 100, some 0, none, false⟩],
   [⟨0, 100, 60⟩], 1, 1⟩

/-- A store with one available 14:00 slot and one service, used to run a
single booking. -/
def dbC9start : DB := ⟨[⟨0, 840, true⟩], [], [⟨0, 100, 60⟩], 1, 0⟩

/-- A CONFIRMED, not yet notified appointment whose slot is at 16:00
(minute 960), two hours after the sweep time 840. -/
def dbC8 : DB :=
  ⟨[⟨0, 960, false⟩], [⟨0, 0, 0, .confirmed, some 100, some 0, none, false⟩],
   [⟨0, 100, 60⟩], 1, 1⟩

/-- The store after booking the 14:00 slot of `dbC4start` and confirming the
booking. -/
def dbC4mid : DB := applyOps dbC4start [.create 1 0 none, .confirm 0 500 0]

/-- A store holding a CANCELLED appointment. -/
def dbC5b : DB :=
  ⟨[⟨0, 840, true⟩], [⟨0, 0, 0, .cancelled, some 100, none, some "r", false⟩],
   [⟨0, 100, 60⟩], 1, 1⟩

/-- A CONFIRMED appointment at 14:00 (minute 840) for a 90-minute service. -/
def dbC6 : DB :=
  ⟨[⟨0, 840, false⟩], [⟨0, 0, 0, .confirmed, some 100, some 0, none, false⟩],
   [⟨0, 100, 90⟩], 1, 1⟩

/-- A CONFIRMED, un-notified appointment at 15:00 (minute 900). -/
def dbC7 : DB :=
  ⟨[⟨0, 900, false⟩], [⟨0, 0, 0, .confirmed, some 100, some 0, none, false⟩],
   [⟨0, 100, 60⟩], 1, 1⟩

/-- A PENDING appointment on the 14:00 slot. -/
def dbC10a : DB :=
  ⟨[⟨0, 840, false⟩], [⟨0, 0, 0, .pending, some 100, none, none, false⟩],
   [⟨0, 100, 60⟩], 1, 1⟩

/-- A PENDING appointment on one 14:00 slot row and a CONFIRMED appointment of
another customer on a second slot row with the same date-time. -/
def dbC10b : DB :=
  ⟨[⟨0, 840, false⟩, ⟨1, 840, false⟩],
   [⟨0, 0, 0, .pending, some 100, none, none, false⟩,
    ⟨1, 1, 0, .confirmed, some 100, some 0, none, false⟩],
   [⟨0, 100, 60⟩], 2, 2⟩

/-! State-machine invariant used for the slot-sharing analysis. -/

/-- Every slot row carrying the appointment's slot id is marked unavailable. -/
def SlotOk (db : DB) (a : Appointment) : Prop :=
  ∀ s ∈ db.slots, s.id = a.time_slot_id → s.is_available = false

/-- Two appointment rows never share a slot while both are active. -/
def NoShare (a b : Appointment) : Prop :=
  Active a → Active b → a.time_slot_id ≠ b.time_slot_id

/-- The state invariant: fresh-id discipline for appointment rows, unique
appointment ids, no COMPLETED rows (the request operations never produce
them), PENDING rows have no `confirmed_at`, every active row sits on an
unavailable slot, and no two rows share a slot while active. -/
def Inv (db : DB) : Prop :=
  (∀ a ∈ db.appointments, a.id < db.nextAppId) ∧
  (db.appointments.map (fun a => a.id)).Nodup ∧
  (∀ a ∈ db.appointments, a.status ≠ .completed) ∧
  (∀ a ∈ db.appointments, a.status = .pending → a.confirmed_at = none) ∧
  (∀ a ∈ db.appointments, Active a → SlotOk db a) ∧
  List.Pairwise NoShare db.appointments

/-- The cancel request targets an appointment that is currently PENDING. -/
def cancelTargetsPending (db : DB) (appId : Nat) : Prop :=
  ∀ a, getAppointment db appId = some a → a.status = .pending

/-- Restriction of the operation alphabet: cancellation is only applied to a
PENDING appointment; create and confirm are unrestricted. -/
def OpAllowed (db : DB) : Op → Prop
  | .cancel appId _ => cancelTargetsPending db appId
  | _ => True

/-- States reachable by create, confirm, and cancel-of-a-PENDING-appointment. -/
inductive ReachPend : DB → DB → Prop
  | refl (db : DB) : ReachPend db db
  | step {db0 db1 : DB} (op : Op) : ReachPend db0 db1 → OpAllowed db1 op →
      ReachPend db0 (applyOp db1 op)

/-- Status of the appointment row at position `i` of the table. -/
def statusAt (db : DB) (i : Nat) : Option Status :=
  (db.appointments[i]?).map (fun a => a.status)

/-!
Theorems. Claim identifiers refer to the frozen claim list over the
specification of the engine. General-purpose lemmas about the store
operations come first.
-/

theorem list_map_ext_mem {α β : Type} {l : List α} {f g : α → β}
    (h : ∀ a ∈ l, f a = g a) : l.map f = l.map g := by
  induction l with
  | nil => rfl
  | cons x xs ih =>
      simp only [List.map_cons]
      exact congrArg₂ _ (h x (by simp)) (ih (fun a ha => h a (by simp [ha])))

theorem list_map_id_mem {α : Type} {l : List α} {f : α → α}
    (h : ∀ a ∈ l, f a = a) : l.map f = l := by
  calc l.map f = l.map id := list_map_ext_mem h
  _ = l := List.map_id l

theorem nodupMap_inj {α β : Type} {l : List α} {f : α → β}
    (h : (l.map f).Nodup) : ∀ a ∈ l, ∀ b ∈ l, f a = f b → a = b := by
  intro a ha b hb hfab
  by_contra hne
  have hp : l.Pairwise (fun x y => f x ≠ f y) := List.pairwise_map.mp h
  exact hp.forall (fun x y hxy => fun he => hxy he.symm) ha hb hne hfab

theorem mem_of_getSlot {db : DB} {sid : Nat} {s : TimeSlot}
    (h : getSlot db sid = some s) : s ∈ db.slots ∧ s.id = sid := by
  refine ⟨List.mem_of_find?_eq_some h, ?_⟩
  have hp := List.find?_some h
  simpa using hp

theorem mem_of_getAppointment {db : DB} {aid : Nat} {a : Appointment}
    (h : getAppointment db aid = some a) : a ∈ db.appointments ∧ a.id = aid := by
  refine ⟨List.mem_of_find?_eq_some h, ?_⟩
  have hp := List.find?_some h
  simpa using hp

theorem getSlotByDate_none {db : DB} {d : Int}
    (h : getSlotByDate db d = none) : ∀ s ∈ db.slots, s.date ≠ d := by
  intro s hs
  have hp := List.find?_eq_none.mp h s hs
  simpa using hp

theorem setSlotAvailById_appointments (db : DB) (sid : Nat) (v : Bool) :
    (setSlotAvailById db sid v).appointments = db.appointments := rfl

theorem setSlotAvailById_nextAppId (db : DB) (sid : Nat) (v : Bool) :
    (setSlotAvailById db sid v).nextAppId = db.nextAppId := rfl

theorem setSlotAvailById_nextSlotId (db : DB) (sid : Nat) (v : Bool) :
    (setSlotAvailById db sid v).nextSlotId = db.nextSlotId := rfl

theorem setSlotAvailById_slots (db : DB) (sid : Nat) (v : Bool) :
    (setSlotAvailById db sid v).slots = db.slots.map (fun s =>
      if s.id = sid then { s with is_available := v } else s) := rfl

theorem blockDate_appointments (db : DB) (d : Int) :
    (blockDate db d).appointments = db.appointments := by
  unfold blockDate
  cases getSlotByDate db d <;> rfl

theorem blockDate_nextAppId (db : DB) (d : Int) :
    (blockDate db d).nextAppId = db.nextAppId := by
  unfold blockDate
  cases getSlotByDate db d <;> rfl

theorem blockDate_slots_congr {db1 db2 : DB} (d : Int)
    (hs : db1.slots = db2.slots) (hn : db1.nextSlotId = db2.nextSlotId) :
    (blockDate db1 d).slots = (blockDate db2 d).slots ∧
    (blockDate db1 d).nextSlotId = (blockDate db2 d).nextSlotId := by
  unfold blockDate getSlotByDate
  rw [hs, hn]
  cases db2.slots.find? (fun s => s.date == d) <;> simp [hs, hn]

theorem releaseDate_appointments (db : DB) (d : Int) :
    (releaseDate db d).appointments = db.appointments := by
  unfold releaseDate
  cases getSlotByDate db d <;> rfl

theorem releaseDate_slots (db : DB) (d : Int) :
    (releaseDate db d).slots = db.slots.map (fun s =>
      if s.date = d then { s with is_available := true } else s) := by
  unfold releaseDate
  cases hf : getSlotByDate db d with
  | some s0 => rfl
  | none =>
      have hall := getSlotByDate_none hf
      simp only
      symm
      exact list_map_id_mem (fun s hs => by simp [hall s hs])

theorem blockDate_avail_true {db : DB} {d : Int} {s : TimeSlot}
    (hmem : s ∈ (blockDate db d).slots) (hav : s.is_available = true) :
    s ∈ db.slots ∧ s.date ≠ d := by
  unfold blockDate at hmem
  cases hf : getSlotByDate db d with
  | some s0 =>
      rw [hf] at hmem
      simp only [List.mem_map] at hmem
      obtain ⟨t, ht, hts⟩ := hmem
      by_cases hd : t.date = d
      · rw [if_pos hd] at hts
        rw [← hts] at hav
        simp at hav
      · rw [if_neg hd] at hts
        subst hts
        exact ⟨ht, hd⟩
  | none =>
      rw [hf] at hmem
      simp only [List.mem_append, List.mem_singleton] at hmem
      rcases hmem with h | h
      · exact ⟨h, getSlotByDate_none hf s h⟩
      · subst h
        simp at hav

theorem setSlotFalse_avail_true {db : DB} {sid : Nat} {s : TimeSlot}
    (hmem : s ∈ (setSlotAvailById db sid false).slots)
    (hav : s.is_available = true) : s ∈ db.slots ∧ s.id ≠ sid := by
  rw [setSlotAvailById_slots] at hmem
  simp only [List.mem_map] at hmem
  obtain ⟨t, ht, hts⟩ := hmem
  by_cases hd : t.id = sid
  · rw [if_pos hd] at hts
    rw [← hts] at hav
    simp at hav
  · rw [if_neg hd] at hts
    subst hts
    exact ⟨ht, hd⟩

theorem blockDate_date_false {db : DB} {d : Int} :
    ∀ s ∈ (blockDate db d).slots, s.date = d → s.is_available = false := by
  intro s hs hd
  by_contra hav
  have hav' : s.is_available = true := by
    cases h : s.is_available
    · exact absurd h hav
    · rfl
  exact absurd hd (blockDate_avail_true hs hav').2

theorem blockDate_all_false_date {db : DB} {d d0 : Int}
    (h : ∀ s ∈ db.slots, s.date = d0 → s.is_available = false) :
    ∀ s ∈ (blockDate db d).slots, s.date = d0 → s.is_available = false := by
  intro s hs hd0
  by_cases hav : s.is_available = true
  · obtain ⟨hmem, _⟩ := blockDate_avail_true hs hav
    exact h s hmem hd0
  · cases h' : s.is_available
    · rfl
    · exact absurd h' hav

theorem blockDate_all_false_id {db : DB} {d : Int} {sid : Nat}
    (h : ∀ s ∈ db.slots, s.id = sid → s.is_available = false) :
    ∀ s ∈ (blockDate db d).slots, s.id = sid → s.is_available = false := by
  intro s hs hid
  by_cases hav : s.is_available = true
  · obtain ⟨hmem, _⟩ := blockDate_avail_true hs hav
    exact h s hmem hid
  · cases h' : s.is_available
    · rfl
    · exact absurd h' hav

theorem blockDate_mem_of_date_ne {db : DB} {d : Int} {s : TimeSlot}
    (hmem : s ∈ db.slots) (hne : s.date ≠ d) : s ∈ (blockDate db d).slots := by
  unfold blockDate
  cases hf : getSlotByDate db d with
  | some s0 =>
      simp only [List.mem_map]
      exact ⟨s, hmem, by rw [if_neg hne]⟩
  | none =>
      simp only [List.mem_append]
      exact Or.inl hmem

theorem blockDate_exists_date (db : DB) (d : Int) :
    ∃ s ∈ (blockDate db d).slots, s.date = d ∧ s.is_available = false := by
  unfold blockDate
  cases hf : getSlotByDate db d with
  | some s0 =>
      have hm := List.mem_of_find?_eq_some hf
      have hd : s0.date = d := by
        have := List.find?_some hf
        simpa using this
      refine ⟨{ s0 with is_available := false }, ?_, hd, rfl⟩
      simp only [List.mem_map]
      exact ⟨s0, hm, by rw [if_pos hd]⟩
  | none =>
      exact ⟨⟨db.nextSlotId, d, false⟩, by simp, rfl, rfl⟩

theorem createWrite_appointments (db : DB) (slot : TimeSlot) (svc : Service)
    (p : Option Int) :
    (createWriteSection db slot svc p).appointments =
      db.appointments ++ [⟨db.nextAppId, slot.id, svc.id, .pending,
        some (p.getD svc.price), none, none, false⟩] := by
  unfold createWriteSection
  simp only [blockDate_appointments, setSlotAvailById_appointments]
  cases p <;> rfl

theorem createWrite_nextAppId (db : DB) (slot : TimeSlot) (svc : Service)
    (p : Option Int) :
    (createWriteSection db slot svc p).nextAppId = db.nextAppId + 1 := by
  unfold createWriteSection
  simp only [blockDate_nextAppId, setSlotAvailById_nextAppId]

theorem createWrite_slots (db : DB) (slot : TimeSlot) (svc : Service)
    (p : Option Int) :
    (createWriteSection db slot svc p).slots =
      (blockDate (blockDate (setSlotAvailById db slot.id false)
        (slot.date + 60)) (slot.date - 60)).slots := rfl

theorem createWrite_avail_true {db : DB} {slot : TimeSlot} {svc : Service}
    {p : Option Int} {s : TimeSlot}
    (hmem : s ∈ (createWriteSection db slot svc p).slots)
    (hav : s.is_available = true) : s ∈ db.slots ∧ s.id ≠ slot.id := by
  rw [createWrite_slots] at hmem
  obtain ⟨h1, _⟩ := blockDate_avail_true hmem hav
  obtain ⟨h2, _⟩ := blockDate_avail_true h1 hav
  exact setSlotFalse_avail_true h2 hav

theorem create_ok_elim {db : DB} {slotId serviceId : Nat} {p : Option Int}
    {db' : DB} {n : Nat}
    (h : create_appointment db slotId serviceId p = .ok (db', n)) :
    ∃ slot svc, getSlot db slotId = some slot ∧ slot.is_available = true ∧
      getService db serviceId = some svc ∧
      db' = createWriteSection db slot svc p ∧ n = db.nextAppId := by
  unfold create_appointment at h
  split at h
  · exact absurd h (by simp)
  · rename_i slot hs
    split at h
    · rename_i hav
      split at h
      · exact absurd h (by simp)
      · rename_i svc hv
        cases h
        exact ⟨slot, svc, hs, hav, hv, rfl, rfl⟩
    · exact absurd h (by simp)

theorem confirm_ok_elim {db : DB} {appId : Nat} {price now : Int} {db' : DB}
    (h : confirm_appointment db appId price now = .ok db') :
    ∃ app slot, getAppointment db appId = some app ∧
      getSlot db app.time_slot_id = some slot ∧
      ¬(slot.date < now) ∧ app.status ≠ .confirmed ∧ app.status ≠ .cancelled ∧
      db' = blockDate (blockDate
        { db with appointments := db.appointments.map (fun b =>
            if b.id = appId then
              { b with status := .confirmed, confirmed_at := some now,
                       final_price := some price }
            else b) } (slot.date + 60)) (slot.date - 60) := by
  unfold confirm_appointment at h
  split at h
  · exact absurd h (by simp)
  · rename_i app ha
    split at h
    · exact absurd h (by simp)
    · rename_i slot hs
      split at h
      · exact absurd h (by simp)
      · rename_i hnow
        split at h
        · exact absurd h (by simp)
        · rename_i hc
          split at h
          · exact absurd h (by simp)
          · rename_i hx
            split at h
            · exact absurd h (by simp)
            · simp only [] at h
              cases h
              exact ⟨app, slot, ha, hs, hnow, hc, hx, rfl⟩

theorem cancel_ok_elim {db : DB} {appId : Nat} {reason : String} {db' : DB}
    (h : cancel_appointment db appId reason = .ok db') :
    ∃ app, getAppointment db appId = some app ∧
      ((getSlot db app.time_slot_id = none ∧
        db' = { db with appointments := db.appointments.map (fun b =>
          if b.id = appId then
            { b with status := .cancelled, cancellation_reason := some reason }
          else b) }) ∨
       (∃ slot, getSlot db app.time_slot_id = some slot ∧
        db' = (if app.confirmed_at.isSome then
          releaseDate (setSlotAvailById
            { db with appointments := db.appointments.map (fun b =>
              if b.id = appId then
                { b with status := .cancelled,
                         cancellation_reason := some reason }
              else b) } slot.id true) (slot.date + 60)
          else setSlotAvailById
            { db with appointments := db.appointments.map (fun b =>
              if b.id = appId then
                { b with status := .cancelled,
                         cancellation_reason := some reason }
              else b) } slot.id true))) := by
  unfold cancel_appointment at h
  split at h
  · exact absurd h (by simp)
  · rename_i app ha
    simp only [] at h
    split at h
    · rename_i hs
      cases h
      exact ⟨app, ha, Or.inl ⟨hs, rfl⟩⟩
    · rename_i slot hs
      cases h
      exact ⟨app, ha, Or.inr ⟨slot, hs, rfl⟩⟩

/-- C1 counterexample: starting from a store with no appointments and three
available slots, the eight listed create/confirm/cancel operations produce a
state in which two appointment rows (ids 1 and 3, both PENDING) reference the
same 14:00 slot row, so more than one active appointment references one
TimeSlot. -/
theorem c1_counterexample :
    dbC1.appointments = [] ∧
    (applyOps dbC1 opsC1).appointments.map
        (fun a => (a.id, a.time_slot_id, a.status)) =
      [(0, 0, .cancelled), (1, 2, .pending), (2, 1, .cancelled),
       (3, 2, .pending)] ∧
    1 < activeCount (applyOps dbC1 opsC1) 2 := by decide

/-- C2: two interleaved reservation requests for the same available slot,
each suspended between its availability check and its write (as the handler is
at its awaited queries), both finish successfully and leave two PENDING
appointments on the slot; only a sequential schedule makes the second request
fail. The check-then-set is a separate read followed by a write, not an atomic
conditional update. -/
theorem c2_race_both_reserves_succeed :
    (runSched dbC2 tasksC2 [0, 1, 0, 1]).2.map (fun t => t.phase) =
      [.finished true, .finished true] ∧
    activeCount (runSched dbC2 tasksC2 [0, 1, 0, 1]).1 0 = 2 ∧
    (runSched dbC2 tasksC2 [0, 0, 1, 1]).2.map (fun t => t.phase) =
      [.finished true, .finished false] := by decide

/-- C4 counterexample: book the 14:00 slot, confirm the booking (so
`confirmed_at` is set), then cancel it. The appointment's own slot (14:00) and
the hour-after slot (15:00) become available again, but the hour-before slot
(13:00) stays unavailable, contradicting the claim that both adjacent buffer
slots are released. -/
theorem c4_counterexample :
    (getAppointment (applyOps dbC4start [.create 1 0 none, .confirm 0 500 0])
        0).map (fun a => a.confirmed_at.isSome) = some true ∧
    (getSlotByDate dbC4run 840).map (fun s => s.is_available) = some true ∧
    (getSlotByDate dbC4run 900).map (fun s => s.is_available) = some true ∧
    (getSlotByDate dbC4run 780).map (fun s => s.is_available) = some false := by
  decide

/-- C5 counterexample: `cancel_appointment` performs no status check, so
cancelling a COMPLETED appointment succeeds and changes its status to
CANCELLED — a COMPLETED appointment's status is not terminal under cancel. -/
theorem c5_counterexample :
    (getAppointment dbC5 0).map (fun a => a.status) = some .completed ∧
    (cancel_appointment dbC5 0 "late").toOption =
      some (applyOp dbC5 (.cancel 0 "late")) ∧
    statusAt (applyOp dbC5 (.cancel 0 "late")) 0 = some .cancelled := by decide

/-- C8 counterexample: a CONFIRMED appointment with `notified = false` whose
slot is two hours away is not returned by the due-appointment query, so the
query does not return every CONFIRMED un-notified appointment — only those
whose slot time lies within the one-hour window. -/
theorem c8_counterexample :
    (getAppointment dbC8 0).map (fun a => (a.status, a.notified)) =
      some (.confirmed, false) ∧
    dueAppointments dbC8 840 = [] := by decide

/-- C9 counterexample: a freshly created appointment is PENDING, not yet
confirmed, and already carries `final_price = 100` (the service's base
price), so `final_price` is not null from creation until confirmation. -/
theorem c9_counterexample :
    (create_appointment dbC9start 0 0 none).toOption =
      some (applyOp dbC9start (.create 0 0 none), 0) ∧
    (getAppointment (applyOp dbC9start (.create 0 0 none)) 0).map
        (fun a => (a.status, a.confirmed_at, a.final_price)) =
      some (.pending, none, some 100) := by decide

theorem bool_eq_false {b : Bool} (h : ¬ b = true) : b = false := by
  cases hb : b
  · rfl
  · exact absurd hb h

/-- C4 amended: cancelling an appointment (with its slot present) sets the
appointment CANCELLED with the reason recorded, releases the appointment's own
slot, and releases the hour-after slot exactly when `confirmed_at` is set;
every other slot — in particular the hour-before slot — keeps its previous
availability. Cancelling a PENDING appointment (`confirmed_at` unset) thus
releases only the appointment's own slot. -/
theorem c4_amended_cancel_releases {db : DB} {appId : Nat} {reason : String}
    {app : Appointment} {slot : TimeSlot}
    (ha : getAppointment db appId = some app)
    (hs : getSlot db app.time_slot_id = some slot) :
    ∃ db', cancel_appointment db appId reason = .ok db' ∧
      db'.appointments = db.appointments.map (fun b =>
        if b.id = appId then
          { b with status := .cancelled, cancellation_reason := some reason }
        else b) ∧
      db'.slots = db.slots.map (fun s =>
        if s.id = slot.id then { s with is_available := true }
        else if app.confirmed_at.isSome = true ∧ s.date = slot.date + 60 then
          { s with is_available := true }
        else s) := by
  unfold cancel_appointment
  simp only [ha, hs]
  refine ⟨_, rfl, ?_, ?_⟩
  · cases hconf : app.confirmed_at <;>
      simp [hconf, releaseDate_appointments, setSlotAvailById_appointments]
  · cases hconf : app.confirmed_at with
    | none =>
        simp only [hconf, Option.isSome_none, Bool.false_eq_true, if_false]
        rw [setSlotAvailById_slots]
        refine list_map_ext_mem (fun s _ => ?_)
        by_cases hid : s.id = slot.id
        · simp [hid]
        · simp [hid]
    | some t =>
        simp only [hconf, Option.isSome_some, if_true]
        rw [releaseDate_slots, setSlotAvailById_slots, List.map_map]
        refine list_map_ext_mem (fun s _ => ?_)
        by_cases hid : s.id = slot.id
        · by_cases hd : s.date = slot.date + 60 <;> simp [hid, hd]
        · by_cases hd : s.date = slot.date + 60 <;> simp [hid, hd]

/-- C4 amended, at a concrete input: cancelling the confirmed 14:00 booking of
`dbC4mid` releases its own slot and the 15:00 slot and leaves every other
slot, in particular the 13:00 one, unchanged. -/
theorem c4_amended_witness :
    ∃ db', cancel_appointment dbC4mid 0 "x" = .ok db' ∧
      db'.appointments = dbC4mid.appointments.map (fun b =>
        if b.id = 0 then
          { b with status := .cancelled, cancellation_reason := some "x" }
        else b) ∧
      db'.slots = dbC4mid.slots.map (fun s =>
        if s.id = 1 then { s with is_available := true }
        else if (Option.isSome (some (0 : Int)) = true ∧
            s.date = (840 : Int) + 60) then
          { s with is_available := true }
        else s) :=
  @c4_amended_cancel_releases dbC4mid 0 "x"
    ⟨0, 1, 0, .confirmed, some 500, some 0, none, false⟩
    ⟨1, 840, false⟩ (by decide) (by decide)

/-- C3: when the target slot exists and is available (and the adjacent-hour
slots carry no reservation), `create_appointment` succeeds, the target slot
and every slot at the hour before and the hour after become unavailable (such
slots exist afterwards, created if they were absent), and any subsequent
create targeting a slot at one of those adjacent hours fails with
`slotUnavailable`. -/
theorem c3_create_blocks_buffers {db : DB} {slotId serviceId : Nat}
    {p : Option Int} {slot : TimeSlot} {svc : Service}
    (hs : getSlot db slotId = some slot)
    (hav : slot.is_available = true)
    (hv : getService db serviceId = some svc)
    (hadj : ∀ s ∈ db.slots,
      s.date = slot.date + 60 ∨ s.date = slot.date - 60 →
      s.is_available = true) :
    ∃ db', create_appointment db slotId serviceId p = .ok (db', db.nextAppId) ∧
      (∀ s ∈ db'.slots, s.id = slotId → s.is_available = false) ∧
      (∃ s ∈ db'.slots, s.date = slot.date + 60 ∧ s.is_available = false) ∧
      (∀ s ∈ db'.slots, s.date = slot.date + 60 → s.is_available = false) ∧
      (∃ s ∈ db'.slots, s.date = slot.date - 60 ∧ s.is_available = false) ∧
      (∀ s ∈ db'.slots, s.date = slot.date - 60 → s.is_available = false) ∧
      (∀ sid2 s2, getSlot db' sid2 = some s2 →
        (s2.date = slot.date + 60 ∨ s2.date = slot.date - 60) →
        ∀ serviceId2 p2, create_appointment db' sid2 serviceId2 p2 =
          .error .slotUnavailable) := by
  obtain ⟨hsmem, hsid⟩ := mem_of_getSlot hs
  refine ⟨createWriteSection db slot svc p, ?_, ?_, ?_, ?_, ?_, ?_, ?_⟩
  · unfold create_appointment
    simp [hs, hav, hv]
  · intro s hmem hid
    rw [createWrite_slots] at hmem
    have h1 : ∀ t ∈ (setSlotAvailById db slot.id false).slots,
        t.id = slot.id → t.is_available = false := by
      intro t ht htid
      by_cases htav : t.is_available = true
      · exact absurd (setSlotFalse_avail_true ht htav).2 (by simp [htid])
      · exact bool_eq_false htav
    exact blockDate_all_false_id (blockDate_all_false_id h1) s hmem
      (by rw [hid, hsid])
  · obtain ⟨s0, hm0, hd0, hav0⟩ :=
      blockDate_exists_date (setSlotAvailById db slot.id false) (slot.date + 60)
    refine ⟨s0, ?_, hd0, hav0⟩
    rw [createWrite_slots]
    exact blockDate_mem_of_date_ne hm0 (by rw [hd0]; omega)
  · intro s hmem hd
    rw [createWrite_slots] at hmem
    exact blockDate_all_false_date
      (fun t ht htd => blockDate_date_false t ht htd) s hmem hd
  · obtain ⟨s0, hm0, hd0, hav0⟩ := blockDate_exists_date
      (blockDate (setSlotAvailById db slot.id false) (slot.date + 60))
      (slot.date - 60)
    refine ⟨s0, ?_, hd0, hav0⟩
    rw [createWrite_slots]
    exact hm0
  · intro s hmem hd
    rw [createWrite_slots] at hmem
    exact blockDate_date_false s hmem hd
  · intro sid2 s2 hget hdate serviceId2 p2
    obtain ⟨hm2, _⟩ := mem_of_getSlot hget
    have hfalse : s2.is_available = false := by
      rw [createWrite_slots] at hm2
      rcases hdate with hd | hd
      · exact blockDate_all_false_date
          (fun t ht htd => blockDate_date_false t ht htd) s2 hm2 hd
      · exact blockDate_date_false s2 hm2 hd
    unfold create_appointment
    simp [hget, hfalse]

/-- C3 at a concrete input: booking 14:00 in a store where 13:00, 14:00 and
15:00 are all free succeeds. -/
theorem c3_witness :
    ∃ db', create_appointment dbC4start 1 0 none = .ok (db', 0) ∧
      (∀ s ∈ db'.slots, s.id = 1 → s.is_available = false) ∧
      (∃ s ∈ db'.slots, s.date = (840 : Int) + 60 ∧ s.is_available = false) ∧
      (∀ s ∈ db'.slots, s.date = (840 : Int) + 60 → s.is_available = false) ∧
      (∃ s ∈ db'.slots, s.date = (840 : Int) - 60 ∧ s.is_available = false) ∧
      (∀ s ∈ db'.slots, s.date = (840 : Int) - 60 → s.is_available = false) ∧
      (∀ sid2 s2, getSlot db' sid2 = some s2 →
        (s2.date = (840 : Int) + 60 ∨ s2.date = (840 : Int) - 60) →
        ∀ serviceId2 p2, create_appointment db' sid2 serviceId2 p2 =
          .error .slotUnavailable) :=
  @c3_create_blocks_buffers dbC4start 1 0 none ⟨1, 840, true⟩ ⟨0, 100, 60⟩
    (by decide) (by decide) (by decide) (by decide)

/-- C6: the completion sweep maps the appointment row at position `i` to
COMPLETED exactly when its status is CONFIRMED and the sweep time is strictly
after the slot's start time plus the service's duration; in every other case
(PENDING, CANCELLED, COMPLETED, or not yet past the end time) the row is
unchanged. -/
theorem c6_completion_exact {db : DB} {now : Int} {i : Nat} {a : Appointment}
    {slot : TimeSlot} {svc : Service}
    (ha : db.appointments[i]? = some a)
    (hs : getSlot db a.time_slot_id = some slot)
    (hv : getService db a.service_id = some svc) :
    (update_completed_appointments db now).appointments[i]? =
      some (if a.status = .confirmed ∧ now > slot.date + (svc.duration : Int)
        then { a with status := .completed } else a) := by
  unfold update_completed_appointments
  simp only [List.getElem?_map, ha, Option.map_some', hs, hv]
  congr 1
  have hiff : (a.status = .confirmed ∧ slot.date < now ∧
      now > slot.date + (svc.duration : Int)) ↔
      (a.status = .confirmed ∧ now > slot.date + (svc.duration : Int)) := by
    constructor
    · rintro ⟨h1, _, h3⟩
      exact ⟨h1, h3⟩
    · rintro ⟨h1, h3⟩
      exact ⟨h1, lt_of_le_of_lt (le_add_of_nonneg_right (by positivity)) h3, h3⟩
  exact if_congr hiff rfl rfl

/-- C6 at the claim's concrete scenario: an appointment confirmed at 14:00
with a 90-minute service is not completed by a sweep at 15:00 and is completed
by a sweep at 15:31. -/
theorem c6_witness :
    statusAt (update_completed_appointments dbC6 900) 0 = some .confirmed ∧
    statusAt (update_completed_appointments dbC6 931) 0 = some .completed := by
  have h1 := @c6_completion_exact dbC6 900 0
    ⟨0, 0, 0, .confirmed, some 100, some 0, none, false⟩
    ⟨0, 840, false⟩ ⟨0, 100, 90⟩ rfl rfl rfl
  have h2 := @c6_completion_exact dbC6 931 0
    ⟨0, 0, 0, .confirmed, some 100, some 0, none, false⟩
    ⟨0, 840, false⟩ ⟨0, 100, 90⟩ rfl rfl rfl
  constructor
  · unfold statusAt
    rw [h1]
    decide
  · unfold statusAt
    rw [h2]
    decide

/-- C7: the reminder sweep leaves the appointment row unchanged (so `notified`
stays false) whenever the customer send or any admin send fails, and any row
whose `notified` flag was turned on by the sweep had a successful customer
send and successful sends to all admins. -/
theorem c7_reminder_marks_only_if_all_sent {db : DB} {now : Int}
    {clientOk : Nat → Bool} {admins : List Nat} {adminOk : Nat → Nat → Bool}
    {i : Nat} {a : Appointment}
    (ha : db.appointments[i]? = some a) :
    ((clientOk a.id = false ∨ ∃ ad ∈ admins, adminOk ad a.id = false) →
      (notify_admin_about_appointment db now clientOk admins
        adminOk).appointments[i]? = some a) ∧
    (∀ a', (notify_admin_about_appointment db now clientOk admins
        adminOk).appointments[i]? = some a' → a'.notified = true →
      a.notified = true ∨
        (clientOk a.id = true ∧ ∀ ad ∈ admins, adminOk ad a.id = true)) := by
  unfold notify_admin_about_appointment
  simp only [List.getElem?_map, ha, Option.map_some']
  constructor
  · intro hfail
    have hcond : ((dueAppointments db now).any (fun d => d.id == a.id) &&
        clientOk a.id && admins.all (fun ad => adminOk ad a.id)) = false := by
      rcases hfail with hc | ⟨ad, had, had2⟩
      · simp [hc]
      · have hall : admins.all (fun ad => adminOk ad a.id) = false := by
          apply bool_eq_false
          intro hall
          rw [List.all_eq_true] at hall
          exact absurd (hall ad had) (by simp [had2])
        simp [hall]
    rw [hcond]
    simp
  · intro a' ha' hnot
    by_cases hcond : ((dueAppointments db now).any (fun d => d.id == a.id) &&
        clientOk a.id && admins.all (fun ad => adminOk ad a.id)) = true
    · right
      simp only [Bool.and_eq_true, List.all_eq_true] at hcond
      exact ⟨hcond.1.2, fun ad had => hcond.2 ad had⟩
    · rw [if_neg hcond] at ha'
      cases ha'
      exact Or.inl hnot

/-- C7 at a concrete input: when the customer send fails, the sweep leaves the
due CONFIRMED appointment untouched, with `notified` still false. -/
theorem c7_witness :
    (notify_admin_about_appointment dbC7 840 (fun _ => false) []
      (fun _ _ => true)).appointments[0]? =
      some ⟨0, 0, 0, .confirmed, some 100, some 0, none, false⟩ :=
  (@c7_reminder_marks_only_if_all_sent dbC7 840 (fun _ => false) []
    (fun _ _ => true) 0 ⟨0, 0, 0, .confirmed, some 100, some 0, none, false⟩
    rfl).1 (Or.inl rfl)

/-- C8 amended: the due-appointment query returns exactly the CONFIRMED,
not-yet-notified appointments whose slot time lies in the window
`(now, now + 60]`. In particular an appointment whose `notified` flag is set
is never returned again, and a CONFIRMED un-notified appointment inside the
window is returned on every tick until the mark-notified step succeeds. -/
theorem c8_amended_due_query_exact (db : DB) (now : Int) (a : Appointment) :
    a ∈ dueAppointments db now ↔
      a ∈ db.appointments ∧ a.status = .confirmed ∧ a.notified = false ∧
      ∃ slot, getSlot db a.time_slot_id = some slot ∧
        now < slot.date ∧ slot.date ≤ now + 60 := by
  unfold dueAppointments
  rw [List.mem_filter]
  constructor
  · rintro ⟨hmem, hp⟩
    simp only [Bool.and_eq_true, beq_iff_eq, Bool.not_eq_true'] at hp
    obtain ⟨⟨hst, hnot⟩, hrest⟩ := hp
    cases hsl : getSlot db a.time_slot_id with
    | none =>
        rw [hsl] at hrest
        simp at hrest
    | some slot =>
        rw [hsl] at hrest
        simp only [Bool.and_eq_true, decide_eq_true_eq] at hrest
        exact ⟨hmem, hst, hnot, slot, rfl, hrest.1, hrest.2⟩
  · rintro ⟨hmem, hst, hnot, slot, hsl, h1, h2⟩
    refine ⟨hmem, ?_⟩
    simp [hst, hnot, hsl, h1, h2]

/-- C9 amended: `final_price` is already assigned at creation — the price
taken from the originating price request when present, otherwise the
service's base price — and confirmation overwrites it with the entered price
while setting status CONFIRMED and `confirmed_at = now`. -/
theorem c9_amended_price_at_creation {db : DB} {slotId serviceId : Nat}
    {p : Option Int} {slot : TimeSlot} {svc : Service}
    (hs : getSlot db slotId = some slot) (hav : slot.is_available = true)
    (hv : getService db serviceId = some svc)
    (hfresh : ∀ a ∈ db.appointments, a.id ≠ db.nextAppId) :
    (∃ db', create_appointment db slotId serviceId p = .ok (db', db.nextAppId) ∧
      getAppointment db' db.nextAppId =
        some ⟨db.nextAppId, slot.id, svc.id, .pending, some (p.getD svc.price),
          none, none, false⟩) ∧
    (∀ (appId : Nat) (price now : Int) (db' : DB),
      confirm_appointment db appId price now = .ok db' →
      ∀ (i : Nat) (a : Appointment), db.appointments[i]? = some a →
        a.id = appId →
        db'.appointments[i]? = some { a with
                                      status := .confirmed,
                                      confirmed_at := some now,
                                      final_price := some price }) := by
  constructor
  · refine ⟨createWriteSection db slot svc p, ?_, ?_⟩
    · unfold create_appointment
      simp [hs, hav, hv]
    · unfold getAppointment
      rw [createWrite_appointments, List.find?_append]
      have hnone : db.appointments.find? (fun a => a.id == db.nextAppId)
          = none := by
        rw [List.find?_eq_none]
        intro a hmem
        simp [hfresh a hmem]
      rw [hnone]
      simp
  · intro appId price now db' hok i a hai haid
    obtain ⟨app, slot2, _, _, _, _, _, hdb⟩ := confirm_ok_elim hok
    subst hdb
    rw [blockDate_appointments, blockDate_appointments]
    simp only [List.getElem?_map, hai, Option.map_some']
    rw [if_pos haid]

/-- C9 amended at a concrete input: booking the free 14:00 slot creates a
PENDING appointment that already carries the service's base price as
`final_price`. -/
theorem c9_amended_witness :
    ∃ db', create_appointment dbC9start 0 0 none = .ok (db', 0) ∧
      getAppointment db' 0 =
        some ⟨0, 0, 0, .pending, some 100, none, none, false⟩ := by
  obtain ⟨⟨db', h1, h2⟩, _⟩ := @c9_amended_price_at_creation
    dbC9start 0 0 none ⟨0, 840, true⟩ ⟨0, 100, 60⟩ (by decide) (by decide)
    (by decide) (by decide)
  exact ⟨db', h1, h2⟩

/-- C10: beyond the NotFound / AlreadyConfirmed / AlreadyCancelled refusals,
confirmation also refuses — leaving the store unchanged — when the
appointment's slot time is already in the past, and when a different
CONFIRMED appointment sits on a slot with the same date-time. -/
theorem c10_confirm_guards {db : DB} {appId : Nat} {price now : Int}
    {app : Appointment} {slot : TimeSlot}
    (ha : getAppointment db appId = some app)
    (hs : getSlot db app.time_slot_id = some slot) :
    (slot.date < now →
      confirm_appointment db appId price now = .error .pastSlot ∧
      applyOp db (.confirm appId price now) = db) ∧
    (¬(slot.date < now) → app.status ≠ .confirmed → app.status ≠ .cancelled →
      ∀ b ∈ db.appointments, b.id ≠ appId → b.status = .confirmed →
      ∀ sb, getSlot db b.time_slot_id = some sb → sb.date = slot.date →
      confirm_appointment db appId price now = .error .overlap ∧
      applyOp db (.confirm appId price now) = db) := by
  constructor
  · intro hpast
    have herr : confirm_appointment db appId price now = .error .pastSlot := by
      unfold confirm_appointment
      simp [ha, hs, hpast]
    refine ⟨herr, ?_⟩
    unfold applyOp
    simp [herr]
  · intro hnow hc hx b hb hbid hbst sb hsb hdate
    have hany : (db.appointments.any (fun b2 =>
        b2.id != appId && b2.status == Status.confirmed &&
        (match getSlot db b2.time_slot_id with
         | some s => s.date == slot.date
         | none => false))) = true := by
      rw [List.any_eq_true]
      refine ⟨b, hb, ?_⟩
      simp [hbid, hbst, hsb, hdate]
    have herr : confirm_appointment db appId price now = .error .overlap := by
      unfold confirm_appointment
      simp [ha, hs, hnow, hc, hx, hany]
    refine ⟨herr, ?_⟩
    unfold applyOp
    simp [herr]

/-- C10 at concrete inputs: confirming an appointment whose slot time has
passed fails with the past-slot refusal, and confirming while another
CONFIRMED appointment occupies a slot with the same date-time fails with the
overlap refusal. -/
theorem c10_witness :
    confirm_appointment dbC10a 0 500 900 = .error .pastSlot ∧
    confirm_appointment dbC10b 0 500 0 = .error .overlap := by
  constructor
  · exact ((@c10_confirm_guards dbC10a 0 500 900
      ⟨0, 0, 0, .pending, some 100, none, none, false⟩
      ⟨0, 840, false⟩ (by decide) (by decide)).1 (by decide)).1
  · exact ((@c10_confirm_guards dbC10b 0 500 0
      ⟨0, 0, 0, .pending, some 100, none, none, false⟩
      ⟨0, 840, false⟩ (by decide) (by decide)).2 (by decide)
      (by decide) (by decide)
      ⟨1, 1, 0, .confirmed, some 100, some 0, none, false⟩ (by decide)
      (by decide) (by decide) ⟨1, 840, false⟩ (by decide) (by decide)).1

/-- C5 amended: a CANCELLED appointment's status never changes again under
any of create, confirm, cancel, the completion sweep or the reminder sweep
(cancel re-writes it to CANCELLED, the other operations leave it alone). A
COMPLETED appointment is likewise untouched by both sweeps and refused by
confirm when its slot time is past, but `cancel_appointment`, which performs
no status check, moves a COMPLETED appointment to CANCELLED (see the
counterexample). -/
theorem c5_amended_cancelled_stable {db : DB} {i : Nat} {a : Appointment}
    (hnodup : (db.appointments.map (fun x => x.id)).Nodup)
    (ha : db.appointments[i]? = some a) (hc : a.status = .cancelled) :
    (∀ op : Op, statusAt (applyOp db op) i = some .cancelled) ∧
    (∀ now : Int, statusAt (update_completed_appointments db now) i =
      some .cancelled) ∧
    (∀ (now : Int) (clientOk : Nat → Bool) (admins : List Nat)
      (adminOk : Nat → Nat → Bool),
      statusAt (notify_admin_about_appointment db now clientOk admins adminOk)
        i = some .cancelled) := by
  have hlt : i < db.appointments.length := by
    by_contra hge
    rw [List.getElem?_eq_none (by omega)] at ha
    exact absurd ha (by simp)
  have hmem : a ∈ db.appointments := by
    have hg : db.appointments[i] = a := by
      rw [List.getElem?_eq_getElem hlt] at ha
      exact Option.some_inj.mp ha
    rw [← hg]
    exact List.getElem_mem hlt
  refine ⟨?_, ?_, ?_⟩
  · intro op
    cases op with
    | create slotId serviceId reqPrice =>
        simp only [applyOp]
        cases hcr : create_appointment db slotId serviceId reqPrice with
        | error e => simp [statusAt, ha, hc]
        | ok pair =>
            obtain ⟨db2, n⟩ := pair
            obtain ⟨slot, svc, _, _, _, hdb2, _⟩ := create_ok_elim hcr
            subst hdb2
            simp only [statusAt, createWrite_appointments]
            rw [List.getElem?_append, if_pos hlt, ha]
            simp [hc]
    | confirm appId price now =>
        simp only [applyOp]
        cases hcf : confirm_appointment db appId price now with
        | error e => simp [statusAt, ha, hc]
        | ok db2 =>
            obtain ⟨app, slot, ha2, _, _, _, hstc, hdb2⟩ := confirm_ok_elim hcf
            subst hdb2
            simp only [statusAt, blockDate_appointments, List.getElem?_map,
              ha, Option.map_some']
            have hne : a.id ≠ appId := by
              intro heq
              obtain ⟨hmem2, hid2⟩ := mem_of_getAppointment ha2
              have heqa : a = app := nodupMap_inj hnodup a hmem app hmem2
                (by rw [heq, hid2])
              exact hstc (by rw [← heqa, hc])
            simp [hne, hc]
    | cancel appId reason =>
        simp only [applyOp]
        cases hcl : cancel_appointment db appId reason with
        | error e => simp [statusAt, ha, hc]
        | ok db2 =>
            obtain ⟨app, _, hcase⟩ := cancel_ok_elim hcl
            have happ : db2.appointments = db.appointments.map (fun b =>
              if b.id = appId then
                { b with status := .cancelled,
                         cancellation_reason := some reason }
              else b) := by
              rcases hcase with ⟨_, rfl⟩ | ⟨slot, _, rfl⟩
              · rfl
              · by_cases hconf : app.confirmed_at.isSome = true
                · rw [if_pos hconf, releaseDate_appointments,
                    setSlotAvailById_appointments]
                · rw [if_neg hconf, setSlotAvailById_appointments]
            simp only [statusAt, happ, List.getElem?_map, ha, Option.map_some']
            by_cases hid : a.id = appId
            · simp [hid]
            · simp [hid, hc]
  · intro now
    unfold update_completed_appointments
    simp only [statusAt, List.getElem?_map, ha, Option.map_some']
    cases hsl : getSlot db a.time_slot_id with
    | none => simp [hc]
    | some slot =>
        cases hsv : getService db a.service_id with
        | none => simp [hc]
        | some svc =>
            have hnc : ¬(a.status = .confirmed ∧ slot.date < now ∧
                now > slot.date + (svc.duration : Int)) := by
              rintro ⟨h1, _, _⟩
              rw [hc] at h1
              exact absurd h1 (by simp)
            simp [hnc, hc]
  · intro now clientOk admins adminOk
    unfold notify_admin_about_appointment
    simp only [statusAt, List.getElem?_map, ha, Option.map_some']
    by_cases hcond : ((dueAppointments db now).any (fun d => d.id == a.id) &&
        clientOk a.id && admins.all (fun ad => adminOk ad a.id)) = true
    · rw [if_pos hcond]
      simp [hc]
    · rw [if_neg hcond]
      simp [hc]

/-- C5 amended at a concrete input: re-cancelling a CANCELLED appointment and
running the completion sweep over it both leave its status CANCELLED. -/
theorem c5_amended_witness :
    statusAt (applyOp dbC5b (.cancel 0 "again")) 0 = some .cancelled ∧
    statusAt (update_completed_appointments dbC5b 2000) 0 = some .cancelled := by
  have h := @c5_amended_cancelled_stable dbC5b 0
    ⟨0, 0, 0, .cancelled, some 100, none, some "r", false⟩
    (by decide) rfl rfl
  exact ⟨h.1 (.cancel 0 "again"), h.2.1 2000⟩

theorem noShare_symm : Symmetric NoShare := by
  intro a b h hb ha
  exact fun heq => h ha hb heq.symm

theorem inv_create {db : DB} {slotId serviceId : Nat} {p : Option Int}
    (hInv : Inv db) : Inv (applyOp db (.create slotId serviceId p)) := by
  simp only [applyOp]
  cases hcr : create_appointment db slotId serviceId p with
  | error e => exact hInv
  | ok pair =>
    obtain ⟨db', n⟩ := pair
    obtain ⟨slot, svc, hs, hav, hv, hdb, _⟩ := create_ok_elim hcr
    subst hdb
    obtain ⟨h1, h2, h3, h4, h5, h6⟩ := hInv
    obtain ⟨hsmem, hsid⟩ := mem_of_getSlot hs
    refine ⟨?_, ?_, ?_, ?_, ?_, ?_⟩
    · rw [createWrite_appointments, createWrite_nextAppId]
      intro a hmem2
      rcases List.mem_append.mp hmem2 with hold | hnew
      · exact Nat.lt_succ_of_lt (h1 a hold)
      · rw [List.mem_singleton] at hnew
        subst hnew
        exact Nat.lt_succ_self _
    · rw [createWrite_appointments, List.map_append, List.nodup_append]
      refine ⟨h2, by simp, ?_⟩
      intro x hx hx2
      simp only [List.map_cons, List.map_nil, List.mem_singleton] at hx2
      subst hx2
      obtain ⟨a, hamem, haid⟩ := List.mem_map.mp hx
      exact absurd (haid ▸ h1 a hamem) (lt_irrefl _)
    · rw [createWrite_appointments]
      intro a hmem2
      rcases List.mem_append.mp hmem2 with hold | hnew
      · exact h3 a hold
      · rw [List.mem_singleton] at hnew
        subst hnew
        simp
    · rw [createWrite_appointments]
      intro a hmem2
      rcases List.mem_append.mp hmem2 with hold | hnew
      · exact h4 a hold
      · rw [List.mem_singleton] at hnew
        subst hnew
        intro _
        rfl
    · rw [createWrite_appointments]
      intro a hmem2 hact s hsmem2 hsid2
      by_cases hsav : s.is_available = true
      · obtain ⟨hsin, hsne⟩ := createWrite_avail_true hsmem2 hsav
        rcases List.mem_append.mp hmem2 with hold | hnew
        · exact absurd (h5 a hold hact s hsin hsid2) (by simp [hsav])
        · rw [List.mem_singleton] at hnew
          subst hnew
          exact absurd hsid2 hsne
      · exact bool_eq_false hsav
    · rw [createWrite_appointments, List.pairwise_append]
      refine ⟨h6, by simp, ?_⟩
      intro a hold b hb
      rw [List.mem_singleton] at hb
      subst hb
      intro hacta _ heq
      exact absurd (h5 a hold hacta slot hsmem heq.symm) (by simp [hav])

theorem inv_confirm {db : DB} {appId : Nat} {price now : Int}
    (hInv : Inv db) : Inv (applyOp db (.confirm appId price now)) := by
  simp only [applyOp]
  cases hcf : confirm_appointment db appId price now with
  | error e => exact hInv
  | ok db' =>
    obtain ⟨app, slot, ha, hs, hnow, hncf, hncl, hdb⟩ := confirm_ok_elim hcf
    subst hdb
    obtain ⟨h1, h2, h3, h4, h5, h6⟩ := hInv
    obtain ⟨hamem, haid⟩ := mem_of_getAppointment ha
    have hpend : app.status = .pending := by
      cases hst : app.status with
      | pending => rfl
      | confirmed => exact absurd hst hncf
      | cancelled => exact absurd hst hncl
      | completed => exact absurd hst (h3 app hamem)
    set g : Appointment → Appointment := fun b =>
      if b.id = appId then
        { b with status := .confirmed, confirmed_at := some now,
                 final_price := some price }
      else b with hgdef
    have hgid : ∀ b, (g b).id = b.id := by
      intro b
      by_cases hb : b.id = appId <;> simp [hgdef, hb]
    have hgts : ∀ b, (g b).time_slot_id = b.time_slot_id := by
      intro b
      by_cases hb : b.id = appId <;> simp [hgdef, hb]
    have hgb : ∀ b ∈ db.appointments, g b = b ∨
        (b = app ∧ (g b).status = .confirmed) := by
      intro b hb
      by_cases hid : b.id = appId
      · right
        have hba : b = app := nodupMap_inj h2 b hb app hamem (by rw [hid, haid])
        exact ⟨hba, by simp [hgdef, hid]⟩
      · left
        simp [hgdef, hid]
    have hgact : ∀ b ∈ db.appointments, Active (g b) → Active b := by
      intro b hb hactg
      rcases hgb b hb with heq | ⟨hbap, _⟩
      · rwa [heq] at hactg
      · subst hbap
        exact Or.inl hpend
    have happs : (blockDate (blockDate
        { db with appointments := db.appointments.map g }
        (slot.date + 60)) (slot.date - 60)).appointments =
        db.appointments.map g := by
      rw [blockDate_appointments, blockDate_appointments]
    have hnext : (blockDate (blockDate
        { db with appointments := db.appointments.map g }
        (slot.date + 60)) (slot.date - 60)).nextAppId = db.nextAppId := by
      rw [blockDate_nextAppId, blockDate_nextAppId]
    have hmono : ∀ s2 ∈ (blockDate (blockDate
        { db with appointments := db.appointments.map g }
        (slot.date + 60)) (slot.date - 60)).slots,
        s2.is_available = true → s2 ∈ db.slots := by
      intro s2 hs2 hsav
      obtain ⟨hs3, _⟩ := blockDate_avail_true hs2 hsav
      obtain ⟨hs4, _⟩ := blockDate_avail_true hs3 hsav
      exact hs4
    refine ⟨?_, ?_, ?_, ?_, ?_, ?_⟩
    · rw [happs, hnext]
      intro a' ha'2
      obtain ⟨b, hb, rfl⟩ := List.mem_map.mp ha'2
      rw [hgid b]
      exact h1 b hb
    · rw [happs, List.map_map]
      have hcomp : ((fun a => a.id) ∘ g) = fun a => a.id := funext hgid
      rw [hcomp]
      exact h2
    · rw [happs]
      intro a' ha'2
      obtain ⟨b, hb, rfl⟩ := List.mem_map.mp ha'2
      rcases hgb b hb with heq | ⟨_, heq⟩
      · rw [heq]
        exact h3 b hb
      · rw [heq]
        simp
    · rw [happs]
      intro a' ha'2 hp
      obtain ⟨b, hb, rfl⟩ := List.mem_map.mp ha'2
      rcases hgb b hb with heq | ⟨_, heq⟩
      · rw [heq] at hp ⊢
        exact h4 b hb hp
      · rw [heq] at hp
        exact absurd hp (by simp)
    · rw [happs]
      intro a' ha'2 hact s2 hs2 hsid2
      by_cases hsav : s2.is_available = true
      · obtain ⟨b, hb, rfl⟩ := List.mem_map.mp ha'2
        have hactb : Active b := hgact b hb hact
        rw [hgts b] at hsid2
        exact absurd (h5 b hb hactb s2 (hmono s2 hs2 hsav) hsid2)
          (by simp [hsav])
      · exact bool_eq_false hsav
    · rw [happs, List.pairwise_map]
      refine List.Pairwise.imp_of_mem ?_ h6
      intro b c hb hc hbc hactgb hactgc
      rw [hgts b, hgts c]
      exact hbc (hgact b hb hactgb) (hgact c hc hactgc)

theorem inv_cancel {db : DB} {appId : Nat} {reason : String}
    (hInv : Inv db) (hpo : cancelTargetsPending db appId) :
    Inv (applyOp db (.cancel appId reason)) := by
  simp only [applyOp]
  cases hcl : cancel_appointment db appId reason with
  | error e => exact hInv
  | ok db' =>
    obtain ⟨app, ha, hcase⟩ := cancel_ok_elim hcl
    obtain ⟨h1, h2, h3, h4, h5, h6⟩ := hInv
    obtain ⟨hamem, haid⟩ := mem_of_getAppointment ha
    have hpend : app.status = .pending := hpo app ha
    have hconfn : app.confirmed_at = none := h4 app hamem hpend
    set g : Appointment → Appointment := fun b =>
      if b.id = appId then
        { b with status := .cancelled, cancellation_reason := some reason }
      else b with hgdef
    have hgid : ∀ b, (g b).id = b.id := by
      intro b
      by_cases hb : b.id = appId <;> simp [hgdef, hb]
    have hgts : ∀ b, (g b).time_slot_id = b.time_slot_id := by
      intro b
      by_cases hb : b.id = appId <;> simp [hgdef, hb]
    have hgact : ∀ b, Active (g b) → g b = b ∧ b.id ≠ appId ∧ Active b := by
      intro b hactg
      by_cases hid : b.id = appId
      · exfalso
        rcases hactg with hx | hx <;> simp [hgdef, hid] at hx
      · have hgb : g b = b := by simp [hgdef, hid]
        rw [hgb] at hactg
        exact ⟨hgb, hid, hactg⟩
    have hnodup : (List.map (fun a => a.id) (db.appointments.map g)).Nodup := by
      rw [List.map_map]
      have hcomp : ((fun a => a.id) ∘ g) = fun a => a.id := funext hgid
      rw [hcomp]
      exact h2
    have hids : ∀ a' ∈ db.appointments.map g, a'.id < db.nextAppId := by
      intro a' ha'2
      obtain ⟨b, hb, rfl⟩ := List.mem_map.mp ha'2
      rw [hgid b]
      exact h1 b hb
    have hncomp : ∀ a' ∈ db.appointments.map g, a'.status ≠ .completed := by
      intro a' ha'2
      obtain ⟨b, hb, rfl⟩ := List.mem_map.mp ha'2
      by_cases hid : b.id = appId
      · simp [hgdef, hid]
      · simp only [hgdef, if_neg hid]
        exact h3 b hb
    have hpnc : ∀ a' ∈ db.appointments.map g, a'.status = .pending →
        a'.confirmed_at = none := by
      intro a' ha'2 hp
      obtain ⟨b, hb, rfl⟩ := List.mem_map.mp ha'2
      by_cases hid : b.id = appId
      · exact absurd hp (by simp [hgdef, hid])
      · have hgb : g b = b := by simp [hgdef, hid]
        rw [hgb] at hp ⊢
        exact h4 b hb hp
    have hpw : List.Pairwise NoShare (db.appointments.map g) := by
      rw [List.pairwise_map]
      refine List.Pairwise.imp_of_mem ?_ h6
      intro b c hb hc hbc hactgb hactgc
      obtain ⟨hgb, _, hactb⟩ := hgact b hactgb
      obtain ⟨hgc, _, hactc⟩ := hgact c hactgc
      rw [hgts b, hgts c]
      exact hbc hactb hactc
    rcases hcase with ⟨hsnone, rfl⟩ | ⟨slot, hs, hdb⟩
    · refine ⟨hids, hnodup, hncomp, hpnc, ?_, hpw⟩
      intro a' ha'2 hact s2 hs2 hsid2
      obtain ⟨b, hb, rfl⟩ := List.mem_map.mp ha'2
      obtain ⟨hgb, _, hactb⟩ := hgact b hact
      rw [hgts b] at hsid2
      exact h5 b hb hactb s2 hs2 hsid2
    · obtain ⟨hslmem, hslid⟩ := mem_of_getSlot hs
      rw [hconfn] at hdb
      simp only [Option.isSome_none, Bool.false_eq_true, if_false] at hdb
      subst hdb
      refine ⟨hids, hnodup, hncomp, hpnc, ?_, hpw⟩
      intro a' ha'2 hact s2 hs2 hsid2
      obtain ⟨b, hb, rfl⟩ := List.mem_map.mp ha'2
      obtain ⟨hgb, hbid, hactb⟩ := hgact b hact
      rw [hgts b] at hsid2
      rw [setSlotAvailById_slots] at hs2
      obtain ⟨s, hsmem2, rfl⟩ := List.mem_map.mp hs2
      by_cases hsid0 : s.id = slot.id
      · exfalso
        rw [if_pos hsid0] at hsid2
        simp only at hsid2
        have hbne : b ≠ app := by
          intro heq
          rw [heq] at hbid
          exact hbid haid
        have hnsh : NoShare b app :=
          List.Pairwise.forall noShare_symm h6 hb hamem hbne
        exact hnsh hactb (Or.inl hpend) (by rw [← hsid2, hsid0, hslid])
      · rw [if_neg hsid0] at hsid2 ⊢
        exact h5 b hb hactb s hsmem2 hsid2

theorem inv_applyOp {db : DB} {op : Op} (hInv : Inv db)
    (hallow : OpAllowed db op) : Inv (applyOp db op) := by
  cases op with
  | create slotId serviceId reqPrice => exact inv_create hInv
  | confirm appId price now => exact inv_confirm hInv
  | cancel appId reason => exact inv_cancel hInv hallow

theorem inv_reachPend {db0 db : DB} (h0 : Inv db0) (h : ReachPend db0 db) :
    Inv db := by
  induction h with
  | refl => exact h0
  | step op hr hallow ih => exact inv_applyOp ih hallow

theorem activeCount_le_one_of_pairwise {db : DB}
    (hp : List.Pairwise NoShare db.appointments) (sid : Nat) :
    activeCount db sid ≤ 1 := by
  unfold activeCount
  have hf := hp.filter (fun a => decide (Active a) && a.time_slot_id == sid)
  cases hl : db.appointments.filter
      (fun a => decide (Active a) && a.time_slot_id == sid) with
  | nil => simp
  | cons x t =>
      cases t with
      | nil => simp
      | cons y t2 =>
          exfalso
          rw [hl] at hf
          have hxy : NoShare x y := List.rel_of_pairwise_cons hf (by simp)
          have hx : x ∈ db.appointments.filter
              (fun a => decide (Active a) && a.time_slot_id == sid) := by
            rw [hl]; simp
          have hy : y ∈ db.appointments.filter
              (fun a => decide (Active a) && a.time_slot_id == sid) := by
            rw [hl]; simp
          obtain ⟨_, hxp⟩ := List.mem_filter.mp hx
          obtain ⟨_, hyp⟩ := List.mem_filter.mp hy
          simp only [Bool.and_eq_true, decide_eq_true_eq, beq_iff_eq] at hxp hyp
          exact hxy hxp.1 hyp.1 (by rw [hxp.2, hyp.2])

/-- C1 amended: the at-most-one-active-appointment-per-slot invariant holds in
every state reachable from a well-formed store by create, confirm, and cancel
restricted to PENDING appointments. (Cancelling a CONFIRMED appointment breaks
it: the buffer release frees the hour-after slot even while another active
appointment references it — see the counterexample.) -/
theorem c1_amended_invariant_pending {db0 db : DB} (h0 : Inv db0)
    (h : ReachPend db0 db) : ∀ sid, activeCount db sid ≤ 1 := by
  intro sid
  obtain ⟨_, _, _, _, _, h6⟩ := inv_reachPend h0 h
  exact activeCount_le_one_of_pairwise h6 sid

/-- C1 amended at a concrete input: after one create on the empty well-formed
store, no slot has more than one active appointment. -/
theorem c1_amended_witness :
    activeCount (applyOp dbC1 (.create 0 0 none)) 2 ≤ 1 :=
  c1_amended_invariant_pending
    ⟨by simp [dbC1], by simp [dbC1], by simp [dbC1], by simp [dbC1],
     by simp [dbC1], by simp [dbC1]⟩
    (ReachPend.step (.create 0 0 none) (ReachPend.refl dbC1) trivial) 2

end IlpotonBot
